import Mathlib

/-!
Password generator (`src/script.js`).

A shallow embedding of the two algorithms of `script.js`:

* `generatePassword` (lines 111-191): pool construction, one guaranteed
  character per selected set, fill, Fisher-Yates shuffle;
* `checkPasswordStrength` (lines 69-106): the score and the level table.

A JavaScript string is a sequence of UTF-16 code units; it is embedded as the
list of its code units (`JSString = List Nat`), so `length`, indexing,
`split('')` and the regular expressions of the source (which have no `u`
flag) all work unit by unit, as they do in JavaScript.

`Math.random()` is embedded as a stream `rnd : Nat → Nat`: the value
`Math.floor(Math.random() * n)` of the `k`-th call is `rnd k % n` (and `0` when
`n = 0`).  Every index in `[0, n)` is reached by some stream, and every stream
gives an index in `[0, n)`, so quantifying over all streams is quantifying over
all behaviours of the random source.
-/

namespace PasswordGenerator

/-- A JavaScript string: the list of its UTF-16 code units. -/
abbrev JSString := List Nat

/-- The code units of an (ASCII) string literal of the source. -/
def js (s : String) : JSString := s.toList.map Char.toNat

/-- The keys of `charSets` / `options` (line 120: `charKeys`). -/
inductive CharKey where
  | uppercase
  | lowercase
  | numbers
  | symbols
  deriving DecidableEq, Repr

/-- Lines 27-32: `charSets`. -/
def charSets : CharKey → JSString
  | .uppercase => js "ABCDEFGHIJKLMNOPQRSTUVWXYZ"
  | .lowercase => js "abcdefghijklmnopqrstuvwxyz"
  | .numbers => js "0123456789"
  | .symbols => js "!@#$%^&*()_+~`|\x7d\x7b[]:;?><,./-="

/-- Line 35: `ambiguousChars`. -/
def ambiguousChars : JSString := js "lI1O0o"

/-- Lines 18-24: the `checked` state of the five checkboxes. -/
structure Options where
  uppercase : Bool
  lowercase : Bool
  numbers : Bool
  symbols : Bool
  ambiguous : Bool
  deriving DecidableEq, Repr

/-- The test `options[key].checked`. -/
def Options.checked (o : Options) : CharKey → Bool
  | .uppercase => o.uppercase
  | .lowercase => o.lowercase
  | .numbers => o.numbers
  | .symbols => o.symbols

/-- Line 120: `charKeys`. -/
def charKeys : List CharKey := [.uppercase, .lowercase, .numbers, .symbols]

/-- Line 121: `charKeys.filter(key => options[key].checked)`. -/
def selectedOptions (o : Options) : List CharKey :=
  charKeys.filter (fun key => o.checked key)

/-- The value of `Math.floor(Math.random() * n)` when the call of
`Math.random` is the one with raw value `raw`. -/
def floorRandom (raw n : Nat) : Nat := if n = 0 then 0 else raw % n

/-- Lines 133-138: the set of a key, with the ambiguous characters filtered
out when `excludeAmbiguous` holds. -/
def effectiveSet (excludeAmbiguous : Bool) (key : CharKey) : JSString :=
  if excludeAmbiguous then
    (charSets key).filter (fun char => !ambiguousChars.contains char)
  else charSets key

/-- The variables that the loop of lines 132-145 updates, with the number of
calls of `Math.random` made so far. -/
structure BuildState where
  characterPool : JSString
  guaranteedChars : List (Option Nat)
  calls : Nat
  deriving DecidableEq, Repr

/-- Lines 132-145: the body of `selectedOptions.forEach`.  `set[i]` is
`undefined` (here `none`) when `i` is out of range. -/
def buildStep (excludeAmbiguous : Bool) (rnd : Nat → Nat) (st : BuildState)
    (key : CharKey) : BuildState :=
  let set := effectiveSet excludeAmbiguous key
  if set.length > 0 then
    { characterPool := st.characterPool ++ set
      guaranteedChars :=
        st.guaranteedChars ++ [set[floorRandom (rnd st.calls) set.length]?]
      calls := st.calls + 1 }
  else st

/-- The string that `+=` appends for `characterPool[randomIndex]`: the
character, or the text `undefined` when the index is out of range. -/
def appended : Option Nat → JSString
  | some c => [c]
  | none => js "undefined"

/-- Lines 157-160: the fill loop, `n` iterations left. -/
def fillLoop (rnd : Nat → Nat) (characterPool : JSString) :
    Nat → JSString → Nat → JSString × Nat
  | 0, password, calls => (password, calls)
  | n + 1, password, calls =>
    let randomIndex := floorRandom (rnd calls) characterPool.length
    fillLoop rnd characterPool n (password ++ appended characterPool[randomIndex]?)
      (calls + 1)

/-- The text of `guaranteedChars.join('')`: `undefined` joins as the empty
string. -/
def joinChars : List (Option Nat) → JSString
  | [] => []
  | some c :: rest => c :: joinChars rest
  | none :: rest => joinChars rest

/-- Line 167: the destructuring swap of `arr[i]` and `arr[j]`.  Both indices
are in range wherever the shuffle calls it; out of range the array is left
alone here. -/
def swap (arr : JSString) (i j : Nat) : JSString :=
  match arr[i]?, arr[j]? with
  | some x, some y => (arr.set i y).set j x
  | _, _ => arr

/-- Lines 164-168: the Fisher-Yates loop, entered with loop variable `i`. -/
def shuffleLoop (rnd : Nat → Nat) : Nat → JSString → Nat → JSString × Nat
  | 0, arr, calls => (arr, calls)
  | i + 1, arr, calls =>
    let j := floorRandom (rnd calls) (i + 1 + 1)
    shuffleLoop rnd i (swap arr (i + 1) j) (calls + 1)

/-- What one run of `generatePassword` leaves on the page. -/
inductive Outcome where
  /-- Lines 123-127: nothing is selected. -/
  | noSelection
  /-- Lines 148-152: the pool is empty. -/
  | noCharacters
  /-- Lines 154-182: `finalPassword`. -/
  | password (finalPassword : JSString)
  deriving DecidableEq, Repr

/-- Lines 111-182: `generatePassword`, for the checkbox state `o`, the parsed
`length` and the random stream `rnd`. -/
def generatePassword (o : Options) (length : Int) (rnd : Nat → Nat) : Outcome :=
  let selected := selectedOptions o
  if selected.length = 0 then .noSelection
  else
    let excludeAmbiguous := o.ambiguous
    let st := selected.foldl (buildStep excludeAmbiguous rnd) ⟨[], [], 0⟩
    if st.characterPool.length = 0 then .noCharacters
    else
      let remainingLength : Int := length - st.guaranteedChars.length
      let filled := fillLoop rnd st.characterPool remainingLength.toNat [] st.calls
      let finalPasswordArray : JSString := filled.1 ++ joinChars st.guaranteedChars
      let shuffled := shuffleLoop rnd (finalPasswordArray.length - 1) finalPasswordArray filled.2
      .password shuffled.1

/-- An entry of `strengthLevels` (lines 87-97). -/
structure StrengthLevel where
  text : String
  color : String
  width : String
  deriving DecidableEq, Repr

/-- Lines 87-97: `strengthLevels[score.toString()]`. -/
def strengthLevels : Int → Option StrengthLevel
  | -1 => some ⟨"Empty", "bg-gray-400", "0%"⟩
  | 0 => some ⟨"Very Weak", "bg-red-700", "10%"⟩
  | 1 => some ⟨"Very Weak", "bg-red-600", "20%"⟩
  | 2 => some ⟨"Weak", "bg-red-500", "35%"⟩
  | 3 => some ⟨"Medium", "bg-orange-500", "50%"⟩
  | 4 => some ⟨"Medium", "bg-yellow-500", "65%"⟩
  | 5 => some ⟨"Strong", "bg-green-500", "80%"⟩
  | 6 => some ⟨"Very Strong", "bg-green-600", "90%"⟩
  | 7 => some ⟨"Excellent", "bg-green-700", "100%"⟩
  | _ => none

/-- The entry for key `-1`. -/
def emptyLevel : StrengthLevel := ⟨"Empty", "bg-gray-400", "0%"⟩

/-- A regular-expression class range `[lo-hi]` tested on one code unit. -/
def inRange (lo hi : Char) (c : Nat) : Bool := lo.toNat ≤ c && c ≤ hi.toNat

/-- Line 81: `/[a-z]/.test(password)`. -/
def hasLower (password : JSString) : Bool := password.any (inRange 'a' 'z')

/-- Line 82: `/[A-Z]/.test(password)`. -/
def hasUpper (password : JSString) : Bool := password.any (inRange 'A' 'Z')

/-- Line 83: `/[0-9]/.test(password)`. -/
def hasDigit (password : JSString) : Bool := password.any (inRange '0' '9')

/-- Line 84: `/[^A-Za-z0-9]/.test(password)`. -/
def hasOther (password : JSString) : Bool :=
  password.any (fun c => !(inRange 'A' 'Z' c || inRange 'a' 'z' c || inRange '0' '9' c))

/-- Lines 70-85: the value of `score` after the `if`/`else`; `none` is
`null`. -/
def passwordScore : Option JSString → Int
  | none => -1
  | some password =>
    if password = [] ∨ password = js "Select an option" then -1
    else
      let length := password.length
      let score : Int := 0
      let score := if length ≥ 8 then score + 1 else score
      let score := if length ≥ 12 then score + 1 else score
      let score := if length ≥ 16 then score + 1 else score
      let score := if hasLower password then score + 1 else score
      let score := if hasUpper password then score + 1 else score
      let score := if hasDigit password then score + 1 else score
      let score := if hasOther password then score + 1 else score
      score

/-- Lines 69-99: the `level` that `checkPasswordStrength` shows. -/
def checkPasswordStrength (password : Option JSString) : StrengthLevel :=
  match strengthLevels (passwordScore password) with
  | some level => level
  | none => emptyLevel

/-- The text left in `passwordDisplay` (lines 124, 149, 173-180). -/
def Outcome.display : Outcome → JSString
  | .noSelection => js "Select an option"
  | .noCharacters => js "No available characters."
  | .password finalPassword => finalPassword

/-- The level shown after the run: `checkPasswordStrength(null)` on lines 125
and 150, `checkPasswordStrength(finalPassword)` on line 182. -/
def Outcome.strength : Outcome → StrengthLevel
  | .noSelection => checkPasswordStrength none
  | .noCharacters => checkPasswordStrength none
  | .password finalPassword => checkPasswordStrength (some finalPassword)

/-! ## The scoring rule in the words of the specification -/

/-- The seven checks of the scoring rule as the specification lists them:
length at least 8, 12, 16; contains a-z; contains A-Z; contains 0-9; contains
a character outside A-Za-z0-9. -/
def specChecks (password : JSString) : List Bool :=
  [decide (password.length ≥ 8),
   decide (password.length ≥ 12),
   decide (password.length ≥ 16),
   decide (∃ c ∈ password, 'a'.toNat ≤ c ∧ c ≤ 'z'.toNat),
   decide (∃ c ∈ password, 'A'.toNat ≤ c ∧ c ≤ 'Z'.toNat),
   decide (∃ c ∈ password, '0'.toNat ≤ c ∧ c ≤ '9'.toNat),
   decide (∃ c ∈ password, ¬ (('A'.toNat ≤ c ∧ c ≤ 'Z'.toNat) ∨
     ('a'.toNat ≤ c ∧ c ≤ 'z'.toNat) ∨ ('0'.toNat ≤ c ∧ c ≤ '9'.toNat)))]

/-- The number of the seven checks that hold. -/
def specScore (password : JSString) : Int := ((specChecks password).count true : Nat)

/-- The level table of the specification: 0, 1 Very Weak; 2 Weak; 3, 4 Medium;
5 Strong; 6 Very Strong; 7 Excellent. -/
def specLevelText : Int → Option String
  | 0 => some "Very Weak"
  | 1 => some "Very Weak"
  | 2 => some "Weak"
  | 3 => some "Medium"
  | 4 => some "Medium"
  | 5 => some "Strong"
  | 6 => some "Very Strong"
  | 7 => some "Excellent"
  | _ => none

/-! ## Facts about the alphabets -/

theorem floorRandom_lt (raw : Nat) {n : Nat} (h : 0 < n) : floorRandom raw n < n := by
  unfold floorRandom
  rw [if_neg (by omega)]
  exact Nat.mod_lt _ h

theorem effectiveSet_ne_nil (ex : Bool) (key : CharKey) : effectiveSet ex key ≠ [] := by
  cases ex <;> cases key <;> decide

theorem effectiveSet_subset {ex : Bool} {key : CharKey} {c : Nat}
    (h : c ∈ effectiveSet ex key) : c ∈ charSets key := by
  unfold effectiveSet at h
  cases ex
  · simpa using h
  · simp only [if_true] at h
    exact (List.mem_filter.mp h).1

theorem effectiveSet_not_ambiguous {key : CharKey} {c : Nat}
    (h : c ∈ effectiveSet true key) : c ∉ ambiguousChars := by
  unfold effectiveSet at h
  simp only [if_true] at h
  have := (List.mem_filter.mp h).2
  simpa using this

theorem mem_effectiveSet_iff {ex : Bool} {key : CharKey} {c : Nat} :
    c ∈ effectiveSet ex key ↔ c ∈ charSets key ∧ (ex = true → c ∉ ambiguousChars) := by
  unfold effectiveSet
  cases ex <;> simp [List.mem_filter]

/-! ## The swap and the shuffle -/

/-- With both indices in range `swap` is the exchange of line 167. -/
theorem swap_of_lt (arr : JSString) (i j : Nat) (hi : i < arr.length) (hj : j < arr.length) :
    swap arr i j = (arr.set i arr[j]).set j arr[i] := by
  unfold swap
  rw [List.getElem?_eq_getElem hi, List.getElem?_eq_getElem hj]

theorem swap_perm (arr : JSString) (i j : Nat) : (swap arr i j).Perm arr := by
  unfold swap
  split
  · rename_i x y hx hy
    obtain ⟨hi, hxi⟩ := List.getElem?_eq_some_iff.mp hx
    obtain ⟨hj, hyj⟩ := List.getElem?_eq_some_iff.mp hy
    rw [List.perm_iff_count]
    intro b
    have hj2 : j < (arr.set i y).length := by simpa using hj
    have hget : (arr.set i y)[j] = y := by
      rw [List.getElem_set]
      split
      · rfl
      · exact hyj
    rw [List.count_set _ _ _ _ hj2, List.count_set _ _ _ _ hi, hget, hxi]
    have hle : (if (x == b) = true then 1 else 0) ≤ List.count b arr := by
      split
      · rename_i hb
        have hb2 : x = b := by simpa using hb
        have : b ∈ arr := hb2 ▸ hxi ▸ List.getElem_mem hi
        exact List.count_pos_iff.mpr this
      · exact Nat.zero_le _
    omega
  · exact List.Perm.refl _

theorem shuffleLoop_perm (rnd : Nat → Nat) (i : Nat) (arr : JSString) (calls : Nat) :
    (shuffleLoop rnd i arr calls).1.Perm arr := by
  induction i generalizing arr calls with
  | zero => exact List.Perm.refl _
  | succ i ih =>
    simp only [shuffleLoop]
    exact (ih _ _).trans (swap_perm _ _ _)

/-! ## The fill loop -/

theorem fillLoop_spec (rnd : Nat → Nat) (pool : JSString) (hpool : pool ≠ [])
    (n : Nat) (password : JSString) (calls : Nat) :
    ∃ fs : JSString, (fillLoop rnd pool n password calls).1 = password ++ fs ∧
      fs.length = n ∧ ∀ c ∈ fs, c ∈ pool := by
  induction n generalizing password calls with
  | zero => exact ⟨[], by simp [fillLoop], rfl, by simp⟩
  | succ n ih =>
    have hlen : 0 < pool.length := List.length_pos.mpr hpool
    have hlt := floorRandom_lt (rnd calls) hlen
    simp only [fillLoop]
    rw [List.getElem?_eq_getElem hlt]
    obtain ⟨fs, h1, h2, h3⟩ := ih (password ++ appended (some pool[floorRandom (rnd calls) pool.length])) (calls + 1)
    refine ⟨pool[floorRandom (rnd calls) pool.length] :: fs, ?_, by simp [h2], ?_⟩
    · rw [h1]; simp [appended]
    · intro c hc
      rcases List.mem_cons.mp hc with h | h
      · rw [h]; exact List.getElem_mem hlt
      · exact h3 c h

/-! ## The loop over the selected sets -/

theorem joinChars_map_some (gs : JSString) : joinChars (gs.map some) = gs := by
  induction gs with
  | nil => rfl
  | cons g gs ih => simp [joinChars, ih]

theorem buildStep_spec (ex : Bool) (rnd : Nat → Nat) (st : BuildState) (key : CharKey) :
    ∃ c ∈ effectiveSet ex key, buildStep ex rnd st key =
      ⟨st.characterPool ++ effectiveSet ex key, st.guaranteedChars ++ [some c], st.calls + 1⟩ := by
  have hlen : 0 < (effectiveSet ex key).length :=
    List.length_pos.mpr (effectiveSet_ne_nil ex key)
  have hlt := floorRandom_lt (rnd st.calls) hlen
  refine ⟨(effectiveSet ex key)[floorRandom (rnd st.calls) (effectiveSet ex key).length],
    List.getElem_mem hlt, ?_⟩
  unfold buildStep
  simp only [gt_iff_lt, hlen, if_true]
  rw [List.getElem?_eq_getElem hlt]

theorem build_spec (ex : Bool) (rnd : Nat → Nat) (keys : List CharKey) (st : BuildState) :
    ∃ gs : JSString,
      (keys.foldl (buildStep ex rnd) st).guaranteedChars = st.guaranteedChars ++ gs.map some ∧
      List.Forall₂ (fun c key => c ∈ effectiveSet ex key) gs keys ∧
      (keys.foldl (buildStep ex rnd) st).characterPool =
        st.characterPool ++ (keys.map (effectiveSet ex)).flatten := by
  induction keys generalizing st with
  | nil => exact ⟨[], by simp, List.Forall₂.nil, by simp⟩
  | cons key keys ih =>
    obtain ⟨c, hc, hstep⟩ := buildStep_spec ex rnd st key
    obtain ⟨gs, h1, h2, h3⟩ := ih (buildStep ex rnd st key)
    refine ⟨c :: gs, ?_, List.Forall₂.cons hc h2, ?_⟩
    · rw [List.foldl_cons, h1, hstep]; simp
    · rw [List.foldl_cons, h3, hstep]; simp

/-! ## The shape of a generated password -/

theorem mem_selectedOptions {o : Options} {key : CharKey} :
    key ∈ selectedOptions o ↔ o.checked key = true := by
  unfold selectedOptions charKeys
  cases key <;> simp [List.mem_filter]

theorem selectedOptions_ne_nil {o : Options} (h : ∃ key, o.checked key = true) :
    selectedOptions o ≠ [] := by
  obtain ⟨key, hkey⟩ := h
  exact List.ne_nil_of_mem (mem_selectedOptions.mpr hkey)

theorem generatePassword_spec (o : Options) (length : Int) (rnd : Nat → Nat)
    (hsel : selectedOptions o ≠ []) :
    ∃ gs fs p : JSString, generatePassword o length rnd = .password p ∧
      p.Perm (fs ++ gs) ∧
      List.Forall₂ (fun c key => c ∈ effectiveSet o.ambiguous key) gs (selectedOptions o) ∧
      fs.length = (length - ((selectedOptions o).length : Int)).toNat ∧
      ∀ c ∈ fs, ∃ key ∈ selectedOptions o, c ∈ effectiveSet o.ambiguous key := by
  obtain ⟨gs, hg, hforall, hpool⟩ :=
    build_spec o.ambiguous rnd (selectedOptions o) ⟨[], [], 0⟩
  simp only [List.nil_append] at hg hpool
  have hglen : gs.length = (selectedOptions o).length := hforall.length_eq
  have hpool_ne : ((selectedOptions o).map (effectiveSet o.ambiguous)).flatten ≠ [] := by
    rw [List.flatten_ne_nil_iff]
    obtain ⟨key, hkey⟩ := List.exists_mem_of_ne_nil _ hsel
    exact ⟨effectiveSet o.ambiguous key, List.mem_map_of_mem _ hkey,
      effectiveSet_ne_nil _ _⟩
  obtain ⟨fs, hf1, hf2, hf3⟩ := fillLoop_spec rnd _ hpool_ne
    (length - ((selectedOptions o).length : Int)).toNat []
    ((selectedOptions o).foldl (buildStep o.ambiguous rnd) ⟨[], [], 0⟩).calls
  have hgen : ∃ p : JSString, generatePassword o length rnd = .password p ∧
      p.Perm (fs ++ gs) := by
    unfold generatePassword
    simp only []
    rw [if_neg (by simpa using hsel), if_neg (by rw [hpool]; exact fun h => hpool_ne (List.length_eq_zero.mp h))]
    refine ⟨_, rfl, (shuffleLoop_perm _ _ _ _).trans ?_⟩
    rw [hg, hpool, joinChars_map_some, List.length_map, hglen, hf1, List.nil_append]
  obtain ⟨p, hp, hperm⟩ := hgen
  refine ⟨gs, fs, p, hp, hperm, hforall, hf2, ?_⟩
  · intro c hc
    have := hf3 c hc
    rw [List.mem_flatten] at this
    obtain ⟨l, hl, hcl⟩ := this
    obtain ⟨key, hkey, rfl⟩ := List.mem_map.mp hl
    exact ⟨key, hkey, hcl⟩

theorem forall₂_mem_right {α β : Type} {R : α → β → Prop} {l₁ : List α} {l₂ : List β}
    (h : List.Forall₂ R l₁ l₂) {b : β} (hb : b ∈ l₂) : ∃ a ∈ l₁, R a b := by
  induction h with
  | nil => cases hb
  | cons hr _ ih =>
    rcases List.mem_cons.mp hb with rfl | hb
    · exact ⟨_, List.mem_cons_self _ _, hr⟩
    · obtain ⟨a, ha, hab⟩ := ih hb
      exact ⟨a, List.mem_cons_of_mem _ ha, hab⟩

theorem forall₂_mem_left {α β : Type} {R : α → β → Prop} {l₁ : List α} {l₂ : List β}
    (h : List.Forall₂ R l₁ l₂) {a : α} (ha : a ∈ l₁) : ∃ b ∈ l₂, R a b := by
  induction h with
  | nil => cases ha
  | cons hr _ ih =>
    rcases List.mem_cons.mp ha with rfl | ha
    · exact ⟨_, List.mem_cons_self _ _, hr⟩
    · obtain ⟨b, hb, hab⟩ := ih ha
      exact ⟨b, List.mem_cons_of_mem _ hb, hab⟩

/-- The facts about a run with at least one set selected that the theorems
below use: the outcome is a password; it has one character of each selected
set; each of its characters is in a selected set; its length. -/
theorem generatePassword_facts (o : Options) (length : Int) (rnd : Nat → Nat)
    (hsel : ∃ key, o.checked key = true) :
    ∃ p : JSString, generatePassword o length rnd = .password p ∧
      (∀ key, o.checked key = true → ∃ c ∈ p, c ∈ effectiveSet o.ambiguous key) ∧
      (∀ c ∈ p, ∃ key, o.checked key = true ∧ c ∈ effectiveSet o.ambiguous key) ∧
      (p.length : Int) = max length ((selectedOptions o).length : Int) := by
  obtain ⟨gs, fs, p, hp, hperm, hforall, hflen, hfs⟩ :=
    generatePassword_spec o length rnd (selectedOptions_ne_nil hsel)
  refine ⟨p, hp, ?_, ?_, ?_⟩
  · intro key hkey
    obtain ⟨c, hc, hck⟩ := forall₂_mem_right hforall (mem_selectedOptions.mpr hkey)
    exact ⟨c, hperm.mem_iff.mpr (List.mem_append_right _ hc), hck⟩
  · intro c hc
    rcases List.mem_append.mp (hperm.mem_iff.mp hc) with h | h
    · obtain ⟨key, hkey, hck⟩ := hfs c h
      exact ⟨key, mem_selectedOptions.mp hkey, hck⟩
    · obtain ⟨key, hkey, hck⟩ := forall₂_mem_left hforall h
      exact ⟨key, mem_selectedOptions.mp hkey, hck⟩
  · rw [hperm.length_eq, List.length_append, hflen, hforall.length_eq]
    push_cast
    omega

/-! ## The strength score -/

theorem hasLower_eq (p : JSString) :
    hasLower p = decide (∃ c ∈ p, 'a'.toNat ≤ c ∧ c ≤ 'z'.toNat) := by
  rw [Bool.eq_iff_iff]
  simp [hasLower, inRange, List.any_eq_true]

theorem hasUpper_eq (p : JSString) :
    hasUpper p = decide (∃ c ∈ p, 'A'.toNat ≤ c ∧ c ≤ 'Z'.toNat) := by
  rw [Bool.eq_iff_iff]
  simp [hasUpper, inRange, List.any_eq_true]

theorem hasDigit_eq (p : JSString) :
    hasDigit p = decide (∃ c ∈ p, '0'.toNat ≤ c ∧ c ≤ '9'.toNat) := by
  rw [Bool.eq_iff_iff]
  simp [hasDigit, inRange, List.any_eq_true]

theorem hasOther_eq (p : JSString) :
    hasOther p = decide (∃ c ∈ p, ¬ (('A'.toNat ≤ c ∧ c ≤ 'Z'.toNat) ∨
      ('a'.toNat ≤ c ∧ c ≤ 'z'.toNat) ∨ ('0'.toNat ≤ c ∧ c ≤ '9'.toNat))) := by
  rw [Bool.eq_iff_iff]
  simp only [hasOther, inRange, List.any_eq_true, decide_eq_true_eq, Bool.not_eq_true',
    Bool.or_eq_false_iff, Bool.and_eq_false_iff, decide_eq_false_iff_not]
  constructor
  · rintro ⟨c, hc, h⟩
    exact ⟨c, hc, by omega⟩
  · rintro ⟨c, hc, h⟩
    exact ⟨c, hc, by omega⟩

/-- One `if (...) score++` step adds the value of its test. -/
theorem incr_eq (b : Prop) [Decidable b] (s : Int) :
    (if b then s + 1 else s) = s + (if b then 1 else 0) := by
  split <;> simp

/-- The score of a string that takes the `else` branch of line 73, as a sum. -/
theorem passwordScore_eq_sum (p : JSString) (h1 : p ≠ []) (h2 : p ≠ js "Select an option") :
    passwordScore (some p) =
      (if p.length ≥ 8 then 1 else 0) + (if p.length ≥ 12 then 1 else 0) +
      (if p.length ≥ 16 then 1 else 0) + (if hasLower p then 1 else 0) +
      (if hasUpper p then 1 else 0) + (if hasDigit p then 1 else 0) +
      (if hasOther p then 1 else 0) := by
  unfold passwordScore
  simp only []
  rw [if_neg (by simp [h1, h2])]
  simp only [incr_eq, zero_add]

theorem passwordScore_range (p : JSString) (h1 : p ≠ []) (h2 : p ≠ js "Select an option") :
    0 ≤ passwordScore (some p) ∧ passwordScore (some p) ≤ 7 := by
  rw [passwordScore_eq_sum p h1 h2]
  constructor
  · repeat' first | apply Int.add_nonneg | (split <;> decide)
  · have e : (7 : Int) = 1 + 1 + 1 + 1 + 1 + 1 + 1 := by norm_num
    rw [e]
    repeat' first | apply Int.add_le_add | (split <;> decide)

theorem count_true_cons (b : Bool) (bs : List Bool) :
    ((b :: bs).count true : Int) = (if b then 1 else 0) + (bs.count true : Int) := by
  cases b
  · simp [List.count_cons]
  · simp [List.count_cons, add_comm]

theorem level_of_score (p : Option JSString) (s : Int) (hs : passwordScore p = s)
    (h0 : 0 ≤ s) (h7 : s ≤ 7) :
    specLevelText s = some (checkPasswordStrength p).text ∧
      checkPasswordStrength p ≠ emptyLevel := by
  unfold checkPasswordStrength
  rw [hs]
  interval_cases s <;> exact ⟨rfl, by decide⟩

/-- C5 (scoring rule): for a password that is neither empty nor the text
'Select an option', the score computed by `checkPasswordStrength` is the number
of the seven checks that hold, it lies in 0..7, and the level shown is the
table entry of the specification for that score; `aB3!defgh` scores 5
('Strong') and `alllowercase` scores 3 ('Medium'). -/
theorem C5_scoring_rule (p : JSString) (h1 : p ≠ []) (h2 : p ≠ js "Select an option") :
    (passwordScore (some p) = specScore p ∧
      0 ≤ passwordScore (some p) ∧ passwordScore (some p) ≤ 7 ∧
      specLevelText (passwordScore (some p)) = some (checkPasswordStrength (some p)).text) ∧
    passwordScore (some (js "aB3!defgh")) = 5 ∧
    (checkPasswordStrength (some (js "aB3!defgh"))).text = "Strong" ∧
    passwordScore (some (js "alllowercase")) = 3 ∧
    (checkPasswordStrength (some (js "alllowercase"))).text = "Medium" := by
  refine ⟨?_, by decide, by decide, by decide, by decide⟩
  have hr := passwordScore_range p h1 h2
  refine ⟨?_, hr.1, hr.2, (level_of_score (some p) _ rfl hr.1 hr.2).1⟩
  rw [passwordScore_eq_sum p h1 h2, hasLower_eq, hasUpper_eq, hasDigit_eq, hasOther_eq]
  unfold specScore specChecks
  simp only [count_true_cons, List.count_nil, decide_eq_true_eq, Nat.cast_zero, add_zero, add_assoc]

/-- C5, at the password `Zz9?` (score 4, 'Medium'). -/
theorem C5_scoring_rule_witness :
    js "Zz9?" ≠ [] ∧ js "Zz9?" ≠ js "Select an option" ∧
    passwordScore (some (js "Zz9?")) = specScore (js "Zz9?") ∧
    passwordScore (some (js "Zz9?")) = 4 ∧
    specLevelText (passwordScore (some (js "Zz9?"))) =
      some (checkPasswordStrength (some (js "Zz9?"))).text ∧
    (checkPasswordStrength (some (js "Zz9?"))).text = "Medium" :=
  have h := C5_scoring_rule (js "Zz9?") (by decide) (by decide)
  ⟨by decide, by decide, h.1.1, by decide, h.1.2.2.2, by decide⟩

/-- C6 (Empty level): `checkPasswordStrength` shows the entry 'Empty' (fill
0%) for `null`, and for a string it shows that entry exactly when the string is
empty or is the text 'Select an option'. -/
theorem C6_empty_level :
    emptyLevel.text = "Empty" ∧ emptyLevel.width = "0%" ∧
    checkPasswordStrength none = emptyLevel ∧
    checkPasswordStrength (some []) = emptyLevel ∧
    checkPasswordStrength (some (js "Select an option")) = emptyLevel ∧
    ∀ p : JSString, checkPasswordStrength (some p) = emptyLevel ↔
      (p = [] ∨ p = js "Select an option") := by
  refine ⟨rfl, rfl, by decide, by decide, by decide, ?_⟩
  intro p
  constructor
  · intro h
    by_contra hne
    simp only [not_or] at hne
    have hr := passwordScore_range p hne.1 hne.2
    exact (level_of_score (some p) _ rfl hr.1 hr.2).2 h
  · rintro (rfl | rfl) <;> decide

/-! ## Character classes of the alphabets -/

/-- Each of the four class tests of lines 81-84 holds on exactly one alphabet. -/
theorem charSets_classes : ∀ key : CharKey, ∀ c ∈ charSets key,
    inRange 'a' 'z' c = decide (key = .lowercase) ∧
    inRange 'A' 'Z' c = decide (key = .uppercase) ∧
    inRange '0' '9' c = decide (key = .numbers) ∧
    (!(inRange 'A' 'Z' c || inRange 'a' 'z' c || inRange '0' '9' c)) =
      decide (key = .symbols) := by
  intro key
  cases key <;> decide

theorem charSets_disjoint : ∀ k1 k2 : CharKey, k1 ≠ k2 → ∀ c ∈ charSets k1, c ∉ charSets k2 := by
  intro k1 k2 h
  cases k1 <;> cases k2 <;> first | exact absurd rfl h | decide

theorem space_not_mem_charSets : ∀ key : CharKey, ' '.toNat ∉ charSets key := by
  intro key
  cases key <;> decide

theorem any_class (f : Nat → Bool) (k0 : CharKey)
    (hf : ∀ key : CharKey, ∀ c ∈ charSets key, f c = decide (key = k0))
    (o : Options) (p : JSString)
    (hcov : ∀ key, o.checked key = true → ∃ c ∈ p, c ∈ effectiveSet o.ambiguous key)
    (hmem : ∀ c ∈ p, ∃ key, o.checked key = true ∧ c ∈ effectiveSet o.ambiguous key) :
    p.any f = o.checked k0 := by
  cases h : o.checked k0
  · rw [List.any_eq_false]
    intro c hc
    obtain ⟨key, hkey, hck⟩ := hmem c hc
    have hne : key ≠ k0 := by
      rintro rfl
      rw [h] at hkey
      exact Bool.noConfusion hkey
    rw [hf key c (effectiveSet_subset hck)]
    simp [hne]
  · rw [List.any_eq_true]
    obtain ⟨c, hc, hck⟩ := hcov k0 h
    exact ⟨c, hc, by rw [hf k0 c (effectiveSet_subset hck)]; simp⟩

theorem selectedOptions_length (o : Options) :
    ((selectedOptions o).length : Int) =
      (if o.lowercase then 1 else 0) + (if o.uppercase then 1 else 0) +
      (if o.numbers then 1 else 0) + (if o.symbols then 1 else 0) := by
  rcases o with ⟨u, l, n, s, a⟩
  cases u <;> cases l <;> cases n <;> cases s <;> rfl

/-- A run with at least one set selected: the password is scored on line 74
onwards, its character classes are the selected sets, and its score is fixed
by the length and the selection. -/
theorem generated_score (o : Options) (length : Int) (rnd : Nat → Nat)
    (hsel : ∃ key, o.checked key = true) :
    ∃ p : JSString, generatePassword o length rnd = .password p ∧
      p ≠ [] ∧ p ≠ js "Select an option" ∧
      (hasLower p = o.lowercase ∧ hasUpper p = o.uppercase ∧
        hasDigit p = o.numbers ∧ hasOther p = o.symbols) ∧
      passwordScore (some p) =
        (if 8 ≤ length then 1 else 0) + (if 12 ≤ length then 1 else 0) +
        (if 16 ≤ length then 1 else 0) + ((selectedOptions o).length : Int) := by
  obtain ⟨p, hp, hcov, hmem, hlen⟩ := generatePassword_facts o length rnd hsel
  have hne : p ≠ [] := by
    obtain ⟨key, hkey⟩ := hsel
    obtain ⟨c, hc, _⟩ := hcov key hkey
    exact List.ne_nil_of_mem hc
  have hns : p ≠ js "Select an option" := by
    intro h
    have hsp : ' '.toNat ∈ p := by rw [h]; decide
    obtain ⟨key, _, hck⟩ := hmem _ hsp
    exact space_not_mem_charSets key (effectiveSet_subset hck)
  have hl : hasLower p = o.lowercase :=
    any_class _ .lowercase (fun key c hc => (charSets_classes key c hc).1) o p hcov hmem
  have hu : hasUpper p = o.uppercase :=
    any_class _ .uppercase (fun key c hc => (charSets_classes key c hc).2.1) o p hcov hmem
  have hd : hasDigit p = o.numbers :=
    any_class _ .numbers (fun key c hc => (charSets_classes key c hc).2.2.1) o p hcov hmem
  have hs : hasOther p = o.symbols :=
    any_class _ .symbols (fun key c hc => (charSets_classes key c hc).2.2.2) o p hcov hmem
  refine ⟨p, hp, hne, hns, ⟨hl, hu, hd, hs⟩, ?_⟩
  rw [passwordScore_eq_sum p hne hns, hl, hu, hd, hs]
  have hk := selectedOptions_length o
  have hk4 : (selectedOptions o).length ≤ 4 := by
    unfold selectedOptions
    exact (List.length_filter_le _ _).trans (by decide)
  have h8 : (p.length ≥ 8) ↔ (8 ≤ length) := by omega
  have h12 : (p.length ≥ 12) ↔ (12 ≤ length) := by omega
  have h16 : (p.length ≥ 16) ↔ (16 ≤ length) := by omega
  simp only [h8, h12, h16]
  rw [hk]
  ring

/-- A run either has no set selected and ends on line 126, or produces a
password all of whose characters come from the filtered sets of selected
keys. -/
theorem outcome_cases (o : Options) (length : Int) (rnd : Nat → Nat) :
    ((∀ key, o.checked key = false) ∧ generatePassword o length rnd = .noSelection) ∨
    (∃ p : JSString, generatePassword o length rnd = .password p ∧
      ∀ c ∈ p, ∃ key, o.checked key = true ∧ c ∈ effectiveSet o.ambiguous key) := by
  by_cases hsel : ∃ key, o.checked key = true
  · right
    obtain ⟨p, hp, -, hmem, -⟩ := generatePassword_facts o length rnd hsel
    exact ⟨p, hp, hmem⟩
  · left
    have hall : ∀ key, o.checked key = false := fun key => by
      cases h : o.checked key
      · rfl
      · exact absurd ⟨key, h⟩ hsel
    refine ⟨hall, ?_⟩
    have hnil : selectedOptions o = [] :=
      List.eq_nil_iff_forall_not_mem.mpr fun key hkey => by
        have := mem_selectedOptions.mp hkey
        rw [hall key] at this
        exact Bool.noConfusion this
    unfold generatePassword
    simp [hnil]

/-! ## The claims about `generatePassword` -/

/-- C1 (coverage): when at least one set is selected and `length` is at least
the number of selected sets, `generatePassword` produces a password that has,
for each selected set, a character of that set which is not one of `lI1O0o`
when `excludeAmbiguous` is on.  (The guaranteed characters are there at every
length, so the proof does not use the bound.) -/
theorem C1_coverage (o : Options) (length : Int) (rnd : Nat → Nat)
    (hsel : ∃ key, o.checked key = true)
    (_hlen : ((selectedOptions o).length : Int) ≤ length) :
    ∃ p : JSString, generatePassword o length rnd = .password p ∧
      ∀ key, o.checked key = true →
        ∃ c ∈ p, c ∈ charSets key ∧ (o.ambiguous = true → c ∉ js "lI1O0o") := by
  obtain ⟨p, hp, hcov, -, -⟩ := generatePassword_facts o length rnd hsel
  refine ⟨p, hp, fun key hkey => ?_⟩
  obtain ⟨c, hc, hck⟩ := hcov key hkey
  exact ⟨c, hc, mem_effectiveSet_iff.mp hck⟩

/-- C1, with all four sets selected, ambiguous characters excluded, length
10. -/
theorem C1_coverage_witness :
    (∃ key, (Options.mk true true true true true).checked key = true) ∧
    ((selectedOptions (Options.mk true true true true true)).length : Int) ≤ 10 ∧
    ∃ p : JSString,
      generatePassword (Options.mk true true true true true) 10 (fun k => k * 7 + 3) =
        .password p ∧
      ∀ key, (Options.mk true true true true true).checked key = true →
        ∃ c ∈ p, c ∈ charSets key ∧
          ((Options.mk true true true true true).ambiguous = true → c ∉ js "lI1O0o") :=
  ⟨⟨.uppercase, rfl⟩, by decide,
    C1_coverage (Options.mk true true true true true) 10 (fun k => k * 7 + 3)
      ⟨.uppercase, rfl⟩ (by decide)⟩

/-- C2 (exact length): when at least one set is selected and `length` is at
least the number `k` of selected sets, `generatePassword` produces a password
of exactly `length` characters: a permutation of `length - k` filled characters
followed by the `k` guaranteed ones. -/
theorem C2_exact_length (o : Options) (length : Int) (rnd : Nat → Nat)
    (hsel : ∃ key, o.checked key = true)
    (hlen : ((selectedOptions o).length : Int) ≤ length) :
    ∃ p : JSString, generatePassword o length rnd = .password p ∧
      (p.length : Int) = length ∧
      ∃ gs fs : JSString, p.Perm (fs ++ gs) ∧ gs.length = (selectedOptions o).length ∧
        (fs.length : Int) = length - ((selectedOptions o).length : Int) := by
  obtain ⟨gs, fs, p, hp, hperm, hforall, hflen, -⟩ :=
    generatePassword_spec o length rnd (selectedOptions_ne_nil hsel)
  have hfl : (fs.length : Int) = length - ((selectedOptions o).length : Int) := by
    rw [hflen]
    omega
  refine ⟨p, hp, ?_, gs, fs, hperm, hforall.length_eq, hfl⟩
  rw [hperm.length_eq, List.length_append, hforall.length_eq]
  push_cast
  omega

/-- C2, with lowercase and numbers selected, length 12. -/
theorem C2_exact_length_witness :
    (∃ key, (Options.mk false true true false false).checked key = true) ∧
    ((selectedOptions (Options.mk false true true false false)).length : Int) ≤ 12 ∧
    ∃ p : JSString,
      generatePassword (Options.mk false true true false false) 12 (fun k => 5 * k + 1) =
        .password p ∧ (p.length : Int) = 12 :=
  ⟨⟨.lowercase, rfl⟩, by decide,
    Exists.imp (fun _ hp => ⟨hp.1, hp.2.1⟩)
      (C2_exact_length (Options.mk false true true false false) 12 (fun k => 5 * k + 1)
        ⟨.lowercase, rfl⟩ (by decide))⟩

/-- C3 (membership): a run of `generatePassword` either has no set selected
and shows 'Select an option', or produces a password each of whose characters
is in a selected set (and is not one of `lI1O0o` when `excludeAmbiguous` is
on) and is in no unselected set. -/
theorem C3_membership (o : Options) (length : Int) (rnd : Nat → Nat) :
    ((∀ key, o.checked key = false) ∧ generatePassword o length rnd = .noSelection) ∨
    (∃ p : JSString, generatePassword o length rnd = .password p ∧
      ∀ c ∈ p,
        (∃ key, o.checked key = true ∧ c ∈ charSets key ∧
          (o.ambiguous = true → c ∉ js "lI1O0o")) ∧
        (∀ key, o.checked key = false → c ∉ charSets key)) := by
  rcases outcome_cases o length rnd with h | ⟨p, hp, hmem⟩
  · exact Or.inl h
  · right
    refine ⟨p, hp, fun c hc => ?_⟩
    obtain ⟨key, hkey, hck⟩ := hmem c hc
    refine ⟨⟨key, hkey, mem_effectiveSet_iff.mp hck⟩, fun key2 hkey2 hc2 => ?_⟩
    have hne : key ≠ key2 := by
      rintro rfl
      rw [hkey] at hkey2
      exact Bool.noConfusion hkey2
    exact charSets_disjoint key key2 hne c (effectiveSet_subset hck) hc2

/-- C4 (ambiguous exclusion): with `excludeAmbiguous` on, a run of
`generatePassword` either has no set selected, or produces a password in which
none of `l`, `I`, `1`, `O`, `0`, `o` occurs. -/
theorem C4_ambiguous_exclusion (o : Options) (length : Int) (rnd : Nat → Nat)
    (hex : o.ambiguous = true) :
    ((∀ key, o.checked key = false) ∧ generatePassword o length rnd = .noSelection) ∨
    (∃ p : JSString, generatePassword o length rnd = .password p ∧
      ∀ c ∈ p, c ≠ 'l'.toNat ∧ c ≠ 'I'.toNat ∧ c ≠ '1'.toNat ∧
        c ≠ 'O'.toNat ∧ c ≠ '0'.toNat ∧ c ≠ 'o'.toNat) := by
  rcases outcome_cases o length rnd with h | ⟨p, hp, hmem⟩
  · exact Or.inl h
  · right
    refine ⟨p, hp, fun c hc => ?_⟩
    obtain ⟨key, -, hck⟩ := hmem c hc
    rw [hex] at hck
    have hna := effectiveSet_not_ambiguous hck
    have e : ambiguousChars =
        ['l'.toNat, 'I'.toNat, '1'.toNat, 'O'.toNat, '0'.toNat, 'o'.toNat] := by decide
    rw [e] at hna
    simp only [List.mem_cons, List.mem_singleton, not_or, List.not_mem_nil, or_false] at hna
    exact hna

/-- C4, with uppercase and numbers selected, length 8. -/
theorem C4_ambiguous_exclusion_witness :
    (Options.mk true false true false true).ambiguous = true ∧
    (((∀ key, (Options.mk true false true false true).checked key = false) ∧
        generatePassword (Options.mk true false true false true) 8 (fun k => 3 * k) =
          .noSelection) ∨
      (∃ p : JSString,
        generatePassword (Options.mk true false true false true) 8 (fun k => 3 * k) =
          .password p ∧
        ∀ c ∈ p, c ≠ 'l'.toNat ∧ c ≠ 'I'.toNat ∧ c ≠ '1'.toNat ∧
          c ≠ 'O'.toNat ∧ c ≠ '0'.toNat ∧ c ≠ 'o'.toNat)) :=
  ⟨rfl, C4_ambiguous_exclusion (Options.mk true false true false true) 8 (fun k => 3 * k) rfl⟩

/-- C7 (digits only): with only `numbers` selected, `excludeAmbiguous` on and
length 5, every run produces a password of 5 characters, all from `23456789`,
whose score is at most 1 (it is 1) and whose level is 'Very Weak'. -/
theorem C7_digits_only (rnd : Nat → Nat) :
    ∃ p : JSString,
      generatePassword (Options.mk false false true false true) 5 rnd = .password p ∧
      p.length = 5 ∧ (∀ c ∈ p, c ∈ js "23456789") ∧
      passwordScore (some p) ≤ 1 ∧ passwordScore (some p) = 1 ∧
      (checkPasswordStrength (some p)).text = "Very Weak" ∧
      (generatePassword (Options.mk false false true false true) 5 rnd).strength.text =
        "Very Weak" := by
  have hsel : ∃ key, (Options.mk false false true false true).checked key = true :=
    ⟨.numbers, rfl⟩
  obtain ⟨p, hp, -, hmem, hlen⟩ :=
    generatePassword_facts (Options.mk false false true false true) 5 rnd hsel
  obtain ⟨p2, hp2, -, -, -, hscore⟩ :=
    generated_score (Options.mk false false true false true) 5 rnd hsel
  have hpp : p2 = p := by
    rw [hp] at hp2
    exact (Outcome.password.inj hp2).symm
  subst hpp
  have hs1 : passwordScore (some p2) = 1 := by
    rw [hscore]; decide
  have hlevel : (checkPasswordStrength (some p2)).text = "Very Weak" := by
    unfold checkPasswordStrength
    rw [hs1]
    rfl
  refine ⟨p2, hp, ?_, ?_, by rw [hs1], hs1, hlevel, ?_⟩
  · have h5 : ((selectedOptions (Options.mk false false true false true)).length : Int) = 1 := by
      decide
    rw [h5] at hlen
    omega
  · intro c hc
    obtain ⟨key, hkey, hck⟩ := hmem c hc
    cases key
    · exact Bool.noConfusion hkey
    · exact Bool.noConfusion hkey
    · have e : effectiveSet true .numbers = js "23456789" := by decide
      exact e ▸ hck
    · exact Bool.noConfusion hkey
  · rw [hp]
    exact hlevel

/-- C8 (terminal outcomes): `generatePassword` ends with 'Select an option'
and the Empty level exactly when no set is selected; it never ends with 'No
available characters.', because every filtered set is non-empty; it
produces a password exactly when some set is selected; and no guaranteed
character is `undefined` (every index read on line 143 is in range). -/
theorem C8_terminal_outcomes (o : Options) (length : Int) (rnd : Nat → Nat) :
    (generatePassword o length rnd = .noSelection ↔ ∀ key, o.checked key = false) ∧
    (((generatePassword o length rnd).display = js "Select an option" ∧
        (generatePassword o length rnd).strength = emptyLevel) ↔
      ∀ key, o.checked key = false) ∧
    generatePassword o length rnd ≠ .noCharacters ∧
    (∀ (ex : Bool) (key : CharKey), effectiveSet ex key ≠ []) ∧
    ((∃ p : JSString, generatePassword o length rnd = .password p) ↔
      ∃ key, o.checked key = true) ∧
    none ∉ ((selectedOptions o).foldl (buildStep o.ambiguous rnd) ⟨[], [], 0⟩).guaranteedChars := by
  have hdef : none ∉
      ((selectedOptions o).foldl (buildStep o.ambiguous rnd) ⟨[], [], 0⟩).guaranteedChars := by
    obtain ⟨gs, hg, -, -⟩ := build_spec o.ambiguous rnd (selectedOptions o) ⟨[], [], 0⟩
    rw [hg]
    simp
  rcases outcome_cases o length rnd with ⟨hall, hgen⟩ | ⟨p, hp, hmem⟩
  · have hno : ¬ ∃ key, o.checked key = true := by
      rintro ⟨key, hkey⟩
      rw [hall key] at hkey
      exact Bool.noConfusion hkey
    refine ⟨⟨fun _ => hall, fun _ => hgen⟩, ⟨fun _ => hall, fun _ => ?_⟩, ?_,
      effectiveSet_ne_nil, ⟨?_, fun h => absurd h hno⟩, hdef⟩
    · rw [hgen]
      exact ⟨rfl, by decide⟩
    · rw [hgen]
      exact Outcome.noConfusion
    · rintro ⟨p, hp⟩
      rw [hgen] at hp
      exact Outcome.noConfusion hp
  · have hsome : ∃ key, o.checked key = true := by
      by_contra hno
      have hall : ∀ key, o.checked key = false := fun key => by
        cases h : o.checked key
        · rfl
        · exact absurd ⟨key, h⟩ hno
      have hnil : selectedOptions o = [] :=
        List.eq_nil_iff_forall_not_mem.mpr fun key hkey => by
          have := mem_selectedOptions.mp hkey
          rw [hall key] at this
          exact Bool.noConfusion this
      have : generatePassword o length rnd = .noSelection := by
        unfold generatePassword
        simp [hnil]
      rw [this] at hp
      exact Outcome.noConfusion hp
    have hnall : ¬ ∀ key, o.checked key = false := by
      intro hall
      obtain ⟨key, hkey⟩ := hsome
      rw [hall key] at hkey
      exact Bool.noConfusion hkey
    have hsp : ' '.toNat ∉ p := by
      intro h
      obtain ⟨key, -, hck⟩ := hmem _ h
      exact space_not_mem_charSets key (effectiveSet_subset hck)
    refine ⟨⟨fun h => ?_, fun h => absurd h hnall⟩, ⟨fun h => ?_, fun h => absurd h hnall⟩,
      ?_, effectiveSet_ne_nil, ⟨fun _ => hsome, fun _ => ⟨p, hp⟩⟩, hdef⟩
    · rw [hp] at h
      exact Outcome.noConfusion h
    · rw [hp] at h
      have h1 : p = js "Select an option" := h.1
      exact absurd (h1 ▸ (by decide : ' '.toNat ∈ js "Select an option")) hsp
    · rw [hp]
      exact Outcome.noConfusion

/-- C9 (overflow): when at least one set is selected, the password has
`max length k` characters, `k` the number of selected sets; when
`length < k` it is a permutation of the `k` guaranteed characters (one from
each selected set, nothing filled), so it is longer than `length`. -/
theorem C9_overflow (o : Options) (length : Int) (rnd : Nat → Nat)
    (hsel : ∃ key, o.checked key = true) :
    ∃ p : JSString, generatePassword o length rnd = .password p ∧
      (p.length : Int) = max length ((selectedOptions o).length : Int) ∧
      (length < ((selectedOptions o).length : Int) →
        p.length = (selectedOptions o).length ∧ length < (p.length : Int) ∧
        ∃ gs : JSString,
          List.Forall₂ (fun c key => c ∈ effectiveSet o.ambiguous key) gs (selectedOptions o) ∧
          p.Perm gs) := by
  obtain ⟨gs, fs, p, hp, hperm, hforall, hflen, -⟩ :=
    generatePassword_spec o length rnd (selectedOptions_ne_nil hsel)
  have hl : (p.length : Int) = max length ((selectedOptions o).length : Int) := by
    rw [hperm.length_eq, List.length_append, hflen, hforall.length_eq]
    push_cast
    omega
  refine ⟨p, hp, hl, fun hlt => ?_⟩
  have hf0 : fs = [] := by
    apply List.length_eq_zero.mp
    rw [hflen]
    omega
  rw [hf0, List.nil_append] at hperm
  refine ⟨by rw [hperm.length_eq, hforall.length_eq], by omega, gs, hforall, hperm⟩

/-- C9, with all four sets selected and length 2: four characters. -/
theorem C9_overflow_witness :
    (∃ key, (Options.mk true true true true false).checked key = true) ∧
    ∃ p : JSString,
      generatePassword (Options.mk true true true true false) 2 (fun k => k + 2) =
        .password p ∧
      p.length = 4 ∧ (2 : Int) < (p.length : Int) ∧
      ∃ gs : JSString,
        List.Forall₂
          (fun c key =>
            c ∈ effectiveSet (Options.mk true true true true false).ambiguous key)
          gs (selectedOptions (Options.mk true true true true false)) ∧
        p.Perm gs :=
  ⟨⟨.uppercase, rfl⟩,
    Exists.imp (fun _ hp => ⟨hp.1, hp.2.2 (by decide)⟩)
      (C9_overflow (Options.mk true true true true false) 2 (fun k => k + 2)
        ⟨.uppercase, rfl⟩)⟩

/-- C10 (strength fixed by the settings): when at least one set is selected,
the score of the generated password is
`[length ≥ 8] + [length ≥ 12] + [length ≥ 16]` plus the number of selected
sets, each character-class test being true exactly when its set is selected;
the level shown is never Empty, and it is 'Excellent' when all four sets are
selected and `length ≥ 16`. -/
theorem C10_strength_fixed (o : Options) (length : Int) (rnd : Nat → Nat)
    (hsel : ∃ key, o.checked key = true) :
    ∃ p : JSString, generatePassword o length rnd = .password p ∧
      passwordScore (some p) =
        (if 8 ≤ length then 1 else 0) + (if 12 ≤ length then 1 else 0) +
        (if 16 ≤ length then 1 else 0) + ((selectedOptions o).length : Int) ∧
      (hasLower p = o.lowercase ∧ hasUpper p = o.uppercase ∧
        hasDigit p = o.numbers ∧ hasOther p = o.symbols) ∧
      (generatePassword o length rnd).strength ≠ emptyLevel ∧
      ((∀ key, o.checked key = true) → 16 ≤ length →
        (generatePassword o length rnd).strength.text = "Excellent") := by
  obtain ⟨p, hp, hne, hns, hcls, hscore⟩ := generated_score o length rnd hsel
  have hr := passwordScore_range p hne hns
  refine ⟨p, hp, hscore, hcls, ?_, fun hall h16 => ?_⟩
  · rw [hp]
    exact (level_of_score (some p) _ rfl hr.1 hr.2).2
  · rw [hp]
    have h4 : ((selectedOptions o).length : Int) = 4 := by
      rw [selectedOptions_length]
      have h1 := hall .lowercase
      have h2 := hall .uppercase
      have h3 := hall .numbers
      have h5 := hall .symbols
      simp only [Options.checked] at h1 h2 h3 h5
      rw [h1, h2, h3, h5]
      rfl
    have h7 : passwordScore (some p) = 7 := by
      rw [hscore, h4, if_pos (by omega), if_pos (by omega), if_pos h16]
      rfl
    show (checkPasswordStrength (some p)).text = "Excellent"
    unfold checkPasswordStrength
    rw [h7]
    rfl

/-- C10, with all four sets selected and length 16: the score is 3 + 4 and
the level is 'Excellent'. -/
theorem C10_strength_fixed_witness :
    (∃ key, (Options.mk true true true true false).checked key = true) ∧
    ∃ p : JSString,
      generatePassword (Options.mk true true true true false) 16 (fun k => 11 * k + 4) =
        .password p ∧
      passwordScore (some p) = 7 ∧
      (hasLower p = true ∧ hasUpper p = true ∧ hasDigit p = true ∧ hasOther p = true) ∧
      (generatePassword (Options.mk true true true true false) 16
        (fun k => 11 * k + 4)).strength ≠ emptyLevel ∧
      (generatePassword (Options.mk true true true true false) 16
        (fun k => 11 * k + 4)).strength.text = "Excellent" :=
  ⟨⟨.uppercase, rfl⟩,
    Exists.imp
      (fun _ hp => ⟨hp.1, hp.2.1, hp.2.2.1, hp.2.2.2.1,
        hp.2.2.2.2 (fun key => by cases key <;> rfl) (by decide)⟩)
      (C10_strength_fixed (Options.mk true true true true false) 16 (fun k => 11 * k + 4)
        ⟨.uppercase, rfl⟩)⟩

end PasswordGenerator
